import Mathlib

/-!
Verification of the survey problem rating dashboard (`src/app.py`).

The backing Google Sheet is modelled as `Option (List Row)`: `none` means the
connection is unavailable (`init_gsheet` returned `None` or a store operation
raised), `some rows` is the worksheet's data rows in sheet order (row 1 is the
header; data row `n` of the sheet is `rows[n-2]`).

`load_ratings`, `save_rating` and `get_rating_for_problem` are translated from
the functions of the same names in `src/app.py`; the navigation logic
(assignment resolution, cursor clamping, jump bounds, previous/next buttons,
the unrated filter and the auto-advance after a save) is translated from the
body of `main`.
-/

namespace SurveyRating

/-- One data row of the "Ratings" worksheet: columns
`problem_index, question_id, rating, rater_id` (A, B, C, D). -/
structure Row where
  problem_index : Nat
  question_id : String
  rating : Nat
  rater_id : String
deriving Repr, DecidableEq

/-- The boolean mask of `save_rating` / `get_rating_for_problem`:
`(ratings_df['problem_index'] == problem_index) & (ratings_df['rater_id'] == rater_id)`. -/
def matchKey (i : Nat) (rater : String) (row : Row) : Bool :=
  row.problem_index == i && row.rater_id == rater

/-- `load_ratings()`: returns the sheet's records, or an empty frame when the
worksheet is `None` or any operation raises. -/
def load_ratings (conn : Option (List Row)) : List Row :=
  conn.getD []

/-- The update branch of `save_rating`: `row_idx = ratings_df[mask].index[0]`
selects the first matching row and `worksheet.update(f'C{row_num}', [[rating]])`
overwrites only its rating cell. -/
def updateFirst (rows : List Row) (i : Nat) (rater : String) (r : Nat) : List Row :=
  match rows with
  | [] => []
  | row :: rest =>
    if matchKey i rater row then { row with rating := r } :: rest
    else row :: updateFirst rest i rater r

/-- `save_rating(problem_index, question_id, rating, rater_id)`: on a live
connection, update the rating cell of the first row matching the key if one
exists (`mask.any()`), otherwise `append_row`; returns the resulting sheet
contents (Python returns `load_ratings()` of the mutated sheet), and `None`
(`none`) when the connection is absent or an operation raises. -/
def save_rating (conn : Option (List Row)) (i : Nat) (q : String) (r : Nat)
    (rater : String) : Option (List Row) :=
  match conn with
  | none => none
  | some rows =>
    if rows.any (matchKey i rater) then some (updateFirst rows i rater r)
    else some (rows ++ [⟨i, q, r, rater⟩])

/-- `get_rating_for_problem(problem_index, rater_id)`: the rating of the first
row matching the key (`ratings_df.loc[mask, 'rating'].values[0]`), or `None`. -/
def get_rating_for_problem (conn : Option (List Row)) (i : Nat) (rater : String) :
    Option Nat :=
  ((load_ratings conn).find? (matchKey i rater)).map Row.rating

/-- Number of stored entries for a key (used to state the one-entry-per-key
invariant). -/
def countKey (rows : List Row) (i : Nat) (rater : String) : Nat :=
  (rows.filter (matchKey i rater)).length

/-! ### Navigation (body of `main`) -/

/-- Python's `list(range(lo, hi))`. -/
def pyRange (lo hi : Nat) : List Nat :=
  List.range' lo (hi - lo)

/-- The static `RATER_ASSIGNMENTS` dictionary of `main`. -/
def RATER_ASSIGNMENTS : List (String × String) :=
  [("Tom", "first_half"), ("Caroline", "first_half"),
   ("Becky", "second_half"), ("Alice", "second_half"), ("Patrick", "all")]

/-- The range-resolution block of `main`: with `half_point = total // 2`,
`"first_half"` gives `range(0, half_point)`, `"second_half"` gives
`range(half_point, total)` and anything else falls to the `else:  # "all"`
branch, `range(0, total)`. -/
def resolveAssignment (assignment : String) (total : Nat) : List Nat :=
  let half_point := total / 2
  if assignment == "first_half" then pyRange 0 half_point
  else if assignment == "second_half" then pyRange half_point total
  else pyRange 0 total

/-- `assigned_problems` for a rater: `RATER_ASSIGNMENTS[rater_id]` resolved
against the catalog size. -/
def assignedProblems (rater : String) (total : Nat) : Option (List Nat) :=
  (RATER_ASSIGNMENTS.lookup rater).map (fun a => resolveAssignment a total)

/-- The cursor-initialisation/clamping block of `main`: when the session has no
`current_index` or it lies outside `assigned_problems`, reset it to
`assigned_problems[0]` (`none` models the `IndexError` on an empty list). -/
def clamp_to_assignment (assigned : List Nat) (cur : Option Nat) : Option Nat :=
  match cur with
  | none => assigned.head?
  | some c => if assigned.contains c then some c else assigned.head?

/-- `min_problem = assigned_problems[0] + 1` (`none` models the `IndexError`). -/
def minProblem (assigned : List Nat) : Option Nat :=
  assigned.head?.map (· + 1)

/-- `max_problem = assigned_problems[-1] + 1` (`none` models the `IndexError`). -/
def maxProblem (assigned : List Nat) : Option Nat :=
  assigned.getLast?.map (· + 1)

/-- The "Go" button: `st.session_state.current_index = jump_to - 1`, where the
number input has already constrained `jump_to` to `[min_problem, max_problem]`. -/
def jump (jump_to : Nat) : Nat :=
  jump_to - 1

/-- Python's `assigned_problems.index(current_idx)`: position of the first
occurrence, `none` models the `ValueError` when absent. -/
def listIndex (assigned : List Nat) (cur : Nat) : Option Nat :=
  match assigned with
  | [] => none
  | x :: rest => if x == cur then some 0 else (listIndex rest cur).map (· + 1)

/-- The "Previous" button: disabled (no-op) when `current_position == 0`,
otherwise moves to `assigned_problems[current_position - 1]`. -/
def retreat (assigned : List Nat) (cur : Nat) : Option Nat :=
  match listIndex assigned cur with
  | none => none
  | some pos =>
    if pos == 0 then some cur else some (assigned.getD (pos - 1) cur)

/-- The "Next" button: disabled (no-op) when
`current_position == len(assigned_problems) - 1`, otherwise moves to
`assigned_problems[current_position + 1]`. -/
def advance (assigned : List Nat) (cur : Nat) : Option Nat :=
  match listIndex assigned cur with
  | none => none
  | some pos =>
    if pos == assigned.length - 1 then some cur
    else some (assigned.getD (pos + 1) cur)

/-- The unrated filter of `main`:
`[i for i in assigned_problems if get_rating_for_problem(i, rater_id) is None]`. -/
def unratedIndices (conn : Option (List Row)) (assigned : List Nat)
    (rater : String) : List Nat :=
  assigned.filter (fun i => (get_rating_for_problem conn i rater).isNone)

/-- The first unrated assigned problem (`unrated_indices[0]`); `none` signals
"all your assigned problems have been rated". -/
def first_unrated (conn : Option (List Row)) (assigned : List Nat)
    (rater : String) : Option Nat :=
  (unratedIndices conn assigned rater).head?

/-- Result of one press of a rating button: the connection (sheet state) after
the attempted save, the cursor afterwards, whether the terminal
"all assigned problems rated" state was reached, and whether the save
succeeded (`result is not None`). -/
structure RateOutcome where
  conn : Option (List Row)
  current_index : Nat
  complete : Bool
  saved : Bool
deriving Repr, DecidableEq

/-- The rating-button handler of `main`: call `save_rating`; when it returns a
result, auto-advance to `assigned_problems[current_position + 1]` if
`current_position < len(assigned_problems) - 1`, else celebrate completion
without moving; when the save failed, change nothing. `none` models the
`ValueError` of `assigned_problems.index` when the cursor is unassigned. -/
def rate_step (conn : Option (List Row)) (assigned : List Nat) (cur : Nat)
    (q : String) (r : Nat) (rater : String) : Option RateOutcome :=
  match save_rating conn cur q r rater with
  | none => some ⟨conn, cur, false, false⟩
  | some rows =>
    match listIndex assigned cur with
    | none => none
    | some pos =>
      if pos < assigned.length - 1 then
        some ⟨some rows, assigned.getD (pos + 1) cur, false, true⟩
      else
        some ⟨some rows, cur, true, true⟩

/-! ### Helper lemmas about the store -/

/-- Position of the first row matching the key
(`ratings_df[mask].index[0]`); `none` when no row matches. -/
def firstMatchIdx (rows : List Row) (i : Nat) (rater : String) : Option Nat :=
  match rows with
  | [] => none
  | row :: rest =>
    if matchKey i rater row then some 0
    else (firstMatchIdx rest i rater).map (· + 1)

theorem matchKey_setRating (j : Nat) (b : String) (row : Row) (r : Nat) :
    matchKey j b { row with rating := r } = matchKey j b row := rfl

theorem rater_eq_of_matchKey {i : Nat} {a : String} {row : Row}
    (h : matchKey i a row = true) : row.rater_id = a := by
  simp only [matchKey, Bool.and_eq_true, beq_iff_eq] at h
  exact h.2

theorem length_updateFirst (rows : List Row) (i : Nat) (a : String) (r : Nat) :
    (updateFirst rows i a r).length = rows.length := by
  induction rows with
  | nil => rfl
  | cons row rest ih =>
    unfold updateFirst
    by_cases h : matchKey i a row = true <;> simp [h, ih]

theorem find?_updateFirst_ne (rows : List Row) (i j : Nat) (a b : String) (r : Nat)
    (hb : b ≠ a) :
    (updateFirst rows i a r).find? (matchKey j b) = rows.find? (matchKey j b) := by
  induction rows with
  | nil => rfl
  | cons row rest ih =>
    unfold updateFirst
    by_cases h : matchKey i a row = true
    · have hra : row.rater_id = a := rater_eq_of_matchKey h
      have hjb : matchKey j b row = false := by
        simp only [matchKey, Bool.and_eq_false_iff, beq_eq_false_iff_ne, ne_eq]
        right
        rw [hra]
        exact fun hc => hb hc.symm
      simp [List.find?_cons, h, matchKey_setRating, hjb]
    · simp only [if_neg h, List.find?_cons]
      cases hjb : matchKey j b row with
      | true => rfl
      | false => exact ih

theorem find?_updateFirst_self (rows : List Row) (i : Nat) (a : String) (r : Nat) :
    (updateFirst rows i a r).find? (matchKey i a) =
      (rows.find? (matchKey i a)).map (fun row => { row with rating := r }) := by
  induction rows with
  | nil => rfl
  | cons row rest ih =>
    unfold updateFirst
    by_cases h : matchKey i a row = true
    · have h' : matchKey i a { row with rating := r } = true := by
        rw [matchKey_setRating]; exact h
      simp [List.find?_cons, h, h']
    · simp only [if_neg h, List.find?_cons]
      cases hm : matchKey i a row with
      | true => exact absurd hm h
      | false => exact ih

theorem updateFirst_eq_self (rows : List Row) (i : Nat) (a : String) (r : Nat)
    (h : (rows.find? (matchKey i a)).map Row.rating = some r) :
    updateFirst rows i a r = rows := by
  induction rows with
  | nil => simp at h
  | cons row rest ih =>
    unfold updateFirst
    by_cases hm : matchKey i a row = true
    · simp only [List.find?_cons, hm, Option.map_some'] at h
      have hr : row.rating = r := by simpa using h
      have : ({ row with rating := r } : Row) = row := by
        cases row
        simp_all
      rw [if_pos hm, this]
    · rw [if_neg hm]
      simp only [List.find?_cons] at h
      cases hmm : matchKey i a row with
      | true => exact absurd hmm hm
      | false =>
        rw [hmm] at h
        rw [ih h]

theorem firstMatchIdx_spec (rows : List Row) (i : Nat) (a : String) (r : Nat)
    {n : Nat} (h : firstMatchIdx rows i a = some n) :
    ∃ hn : n < rows.length,
      matchKey i a (rows.get ⟨n, hn⟩) = true ∧
      updateFirst rows i a r = rows.set n { rows.get ⟨n, hn⟩ with rating := r } := by
  induction rows generalizing n with
  | nil => simp [firstMatchIdx] at h
  | cons row rest ih =>
    unfold firstMatchIdx at h
    by_cases hm : matchKey i a row = true
    · rw [if_pos hm] at h
      obtain rfl : (0 : Nat) = n := by simpa using h
      refine ⟨Nat.succ_pos _, hm, ?_⟩
      unfold updateFirst
      rw [if_pos hm]
      rfl
    · rw [if_neg hm] at h
      obtain ⟨m, hmem, rfl⟩ := Option.map_eq_some'.mp h
      obtain ⟨hmlt, hmk, hupd⟩ := ih hmem
      refine ⟨Nat.succ_lt_succ hmlt, hmk, ?_⟩
      unfold updateFirst
      rw [if_neg hm, hupd]
      rfl

theorem any_iff_firstMatchIdx (rows : List Row) (i : Nat) (a : String) :
    rows.any (matchKey i a) = true ↔ (firstMatchIdx rows i a).isSome = true := by
  induction rows with
  | nil => simp [firstMatchIdx]
  | cons row rest ih =>
    unfold firstMatchIdx
    by_cases hm : matchKey i a row = true
    · simp [hm]
    · simp [hm, ih]

theorem countKey_updateFirst (rows : List Row) (i : Nat) (a : String) (r : Nat) :
    countKey (updateFirst rows i a r) i a = countKey rows i a := by
  induction rows with
  | nil => rfl
  | cons row rest ih =>
    unfold countKey updateFirst
    by_cases hm : matchKey i a row = true
    · have hm' : matchKey i a { row with rating := r } = true := by
        rw [matchKey_setRating]; exact hm
      simp only [List.filter_cons, hm, hm', if_pos]
      simp only [countKey] at ih
      simp [ih]
    · simp only [List.filter_cons, hm, if_neg, Bool.false_eq_true, not_false_iff]
      simpa [countKey] using ih

theorem countKey_append_one (rows : List Row) (i : Nat) (q : String) (r : Nat)
    (a : String) :
    countKey (rows ++ [⟨i, q, r, a⟩]) i a = countKey rows i a + 1 := by
  unfold countKey
  rw [List.filter_append]
  have : matchKey i a ⟨i, q, r, a⟩ = true := by simp [matchKey]
  simp [this]

theorem countKey_eq_zero_iff (rows : List Row) (i : Nat) (a : String) :
    countKey rows i a = 0 ↔ rows.any (matchKey i a) = false := by
  unfold countKey
  rw [List.length_eq_zero]
  constructor
  · intro h
    rw [← Bool.not_eq_true, List.any_eq_true]
    rintro ⟨x, hx, hm⟩
    have : x ∈ rows.filter (matchKey i a) := List.mem_filter.mpr ⟨hx, hm⟩
    rw [h] at this
    exact absurd this (List.not_mem_nil x)
  · intro h
    rw [List.filter_eq_nil_iff]
    intro x hx
    intro hm
    have : rows.any (matchKey i a) = true := List.any_eq_true.mpr ⟨x, hx, hm⟩
    rw [h] at this
    exact Bool.false_ne_true this

/-! ### Helper lemmas about ranges and list indexing -/

theorem mem_pyRange {x lo hi : Nat} :
    x ∈ pyRange lo hi ↔ lo ≤ x ∧ x < lo + (hi - lo) := by
  unfold pyRange
  exact List.mem_range'_1

theorem mem_pyRange_of_le {x lo hi : Nat} (h : lo ≤ hi) :
    x ∈ pyRange lo hi ↔ lo ≤ x ∧ x < hi := by
  rw [mem_pyRange, Nat.add_sub_cancel' h]

theorem length_pyRange (lo hi : Nat) : (pyRange lo hi).length = hi - lo :=
  List.length_range' lo 1 (hi - lo)

theorem getElem_pyRange {lo hi k : Nat} (h : k < (pyRange lo hi).length) :
    (pyRange lo hi)[k] = lo + k :=
  List.getElem_range'_1 k h

theorem getD_pyRange {lo hi k : Nat} (d : Nat) (h : k < hi - lo) :
    (pyRange lo hi).getD k d = lo + k := by
  have hlen : k < (pyRange lo hi).length := by rw [length_pyRange]; exact h
  rw [List.getD_eq_getElem _ _ hlen, getElem_pyRange hlen]

theorem head?_pyRange {lo hi : Nat} (h : lo < hi) :
    (pyRange lo hi).head? = some lo := by
  have hlen : 0 < (pyRange lo hi).length := by rw [length_pyRange]; omega
  rw [List.head?_eq_getElem?, List.getElem?_eq_getElem hlen, getElem_pyRange hlen]
  simp

theorem getLast?_pyRange {lo hi : Nat} (h : lo < hi) :
    (pyRange lo hi).getLast? = some (hi - 1) := by
  have hlen : (pyRange lo hi).length - 1 < (pyRange lo hi).length := by
    rw [length_pyRange]; omega
  rw [List.getLast?_eq_getElem?, List.getElem?_eq_getElem hlen, getElem_pyRange hlen,
    length_pyRange]
  congr 1
  omega

theorem head?_mem {α : Type} {l : List α} {x : α} (h : l.head? = some x) : x ∈ l := by
  cases l with
  | nil => simp at h
  | cons y ys =>
    obtain rfl : y = x := by simpa using h
    exact List.mem_cons_self _ _

theorem listIndex_lt_length {l : List Nat} {c n : Nat} (h : listIndex l c = some n) :
    n < l.length := by
  induction l generalizing n with
  | nil => simp [listIndex] at h
  | cons x rest ih =>
    unfold listIndex at h
    by_cases hx : (x == c) = true
    · rw [if_pos hx] at h
      obtain rfl : (0 : Nat) = n := by simpa using h
      exact Nat.succ_pos _
    · rw [if_neg hx] at h
      obtain ⟨m, hmem, rfl⟩ := Option.map_eq_some'.mp h
      exact Nat.succ_lt_succ (ih hmem)

theorem listIndex_isSome_of_mem {l : List Nat} {c : Nat} (h : c ∈ l) :
    (listIndex l c).isSome = true := by
  induction l with
  | nil => exact absurd h (List.not_mem_nil c)
  | cons x rest ih =>
    unfold listIndex
    by_cases hx : (x == c) = true
    · simp [hx]
    · have : c ∈ rest := by
        rcases List.mem_cons.mp h with h1 | h1
        · exact absurd (by simp [h1]) hx
        · exact h1
      simp [hx, ih this]

theorem getD_mem {l : List Nat} {k : Nat} (d : Nat) (h : k < l.length) :
    l.getD k d ∈ l := by
  rw [List.getD_eq_getElem _ _ h]
  exact List.getElem_mem h

theorem listIndex_range' (n : Nat) :
    ∀ lo cur : Nat, lo ≤ cur → cur < lo + n →
      listIndex (List.range' lo n) cur = some (cur - lo) := by
  induction n with
  | zero => intro lo cur h1 h2; omega
  | succ m ih =>
    intro lo cur h1 h2
    rw [List.range'_succ]
    unfold listIndex
    by_cases hx : (lo == cur) = true
    · have : lo = cur := by simpa using hx
      subst this
      simp
    · have hne : lo ≠ cur := by simpa using hx
      have h1' : lo + 1 ≤ cur := by omega
      rw [if_neg hx, ih (lo + 1) cur h1' (by omega)]
      simp only [Option.map_some']
      congr 1
      omega

theorem listIndex_pyRange {lo hi cur : Nat} (h1 : lo ≤ cur) (h2 : cur < hi) :
    listIndex (pyRange lo hi) cur = some (cur - lo) := by
  unfold pyRange
  exact listIndex_range' (hi - lo) lo cur h1 (by omega)

/-- Every branch of `resolveAssignment` is a contiguous `range`. -/
theorem resolveAssignment_shape (assignment : String) (total : Nat) :
    resolveAssignment assignment total = pyRange 0 (total / 2) ∨
    resolveAssignment assignment total = pyRange (total / 2) total ∨
    resolveAssignment assignment total = pyRange 0 total := by
  unfold resolveAssignment
  by_cases h1 : (assignment == "first_half") = true
  · left; simp [h1]
  · by_cases h2 : (assignment == "second_half") = true
    · right; left; simp [h1, h2]
    · right; right; simp [h1, h2]

theorem resolve_first (N : Nat) :
    resolveAssignment "first_half" N = pyRange 0 (N / 2) := by
  simp [resolveAssignment]

theorem resolve_second (N : Nat) :
    resolveAssignment "second_half" N = pyRange (N / 2) N := by
  simp [resolveAssignment]

theorem resolve_all (N : Nat) :
    resolveAssignment "all" N = pyRange 0 N := by
  simp [resolveAssignment]

theorem resolve_subset {assignment : String} {N x : Nat}
    (h : x ∈ resolveAssignment assignment N) : x < N := by
  rcases resolveAssignment_shape assignment N with hs | hs | hs <;>
    rw [hs, mem_pyRange] at h <;> omega

theorem pyRange_partition (N : Nat) :
    pyRange 0 (N / 2) ++ pyRange (N / 2) N = pyRange 0 N := by
  unfold pyRange
  have h := List.range'_append 0 (N / 2) (N - N / 2) 1
  simp only [Nat.one_mul, Nat.zero_add] at h
  rw [Nat.sub_zero, Nat.sub_zero, h]
  congr 1
  omega

/-! ### Claims -/

/-- C2: every resolved assigned range is contained in `[0, N)`; `first_half`
resolves to `[0, N/2)` with floor division, `second_half` to `[N/2, N)`,
`all` to `[0, N)`; `first_half` and `second_half` partition `[0, N)` exactly,
including odd `N` (e.g. `N = 7` gives `[0, 3)` and `[3, 7)`). -/
theorem C2_resolve_ranges :
    (∀ rater N assigned x, assignedProblems rater N = some assigned →
        x ∈ assigned → x < N)
    ∧ (∀ N x, x ∈ resolveAssignment "first_half" N ↔ x < N / 2)
    ∧ (∀ N x, x ∈ resolveAssignment "second_half" N ↔ N / 2 ≤ x ∧ x < N)
    ∧ (∀ N x, x ∈ resolveAssignment "all" N ↔ x < N)
    ∧ (∀ N, resolveAssignment "first_half" N ++ resolveAssignment "second_half" N
          = resolveAssignment "all" N)
    ∧ resolveAssignment "first_half" 7 = [0, 1, 2]
    ∧ resolveAssignment "second_half" 7 = [3, 4, 5, 6] := by
  refine ⟨?_, ?_, ?_, ?_, ?_, by decide, by decide⟩
  · intro rater N assigned x hres hx
    obtain ⟨a, _, rfl⟩ := Option.map_eq_some'.mp hres
    exact resolve_subset hx
  · intro N x
    rw [resolve_first, mem_pyRange_of_le (Nat.zero_le _)]
    omega
  · intro N x
    rw [resolve_second, mem_pyRange_of_le (Nat.div_le_self N 2)]
  · intro N x
    rw [resolve_all, mem_pyRange_of_le (Nat.zero_le _)]
    omega
  · intro N
    rw [resolve_first, resolve_second, resolve_all]
    exact pyRange_partition N

/-- C2 witness: the containment conjunct applied to rater "Tom" with a
10-problem catalog and index 3. -/
theorem C2_resolve_ranges_witness :
    assignedProblems "Tom" 10 = some [0, 1, 2, 3, 4] ∧ (3 : Nat) < 10 :=
  ⟨by decide, C2_resolve_ranges.1 "Tom" 10 [0, 1, 2, 3, 4] 3 (by decide) (by decide)⟩

/-- C3: with an unreachable backing store, `load_ratings` (all) returns the
empty table, `get_rating_for_problem` returns `none` (displays unrated),
`save_rating` returns `None`, and the rating-button step leaves the store
and the cursor unchanged, reporting no success and no completion. -/
theorem C3_store_unreachable :
    load_ratings none = []
    ∧ (∀ i rater, get_rating_for_problem none i rater = none)
    ∧ (∀ i q r rater, save_rating none i q r rater = none)
    ∧ (∀ assigned cur q r rater,
        rate_step none assigned cur q r rater =
          some { conn := none, current_index := cur,
                 complete := false, saved := false }) :=
  ⟨rfl, fun _ _ => rfl, fun _ _ _ _ => rfl, fun _ _ _ _ _ => rfl⟩

theorem countKey_pos_of_any {rows : List Row} {i : Nat} {a : String}
    (h : rows.any (matchKey i a) = true) : 0 < countKey rows i a := by
  rcases Nat.eq_zero_or_pos (countKey rows i a) with h0 | h0
  · rw [(countKey_eq_zero_iff rows i a).mp h0] at h
    exact absurd h (by simp)
  · exact h0

theorem get_after_save {rows rows' : List Row} {i : Nat} {q : String} {r : Nat}
    {rater : String} (h : save_rating (some rows) i q r rater = some rows') :
    get_rating_for_problem (some rows') i rater = some r := by
  simp only [save_rating] at h
  by_cases hany : rows.any (matchKey i rater) = true
  · rw [if_pos hany] at h
    obtain rfl : updateFirst rows i rater r = rows' := by simpa using h
    unfold get_rating_for_problem load_ratings
    rw [Option.getD_some, find?_updateFirst_self]
    have hsome : (rows.find? (matchKey i rater)).isSome = true :=
      List.find?_isSome.mpr (List.any_eq_true.mp hany)
    obtain ⟨row0, hrow0⟩ := Option.isSome_iff_exists.mp hsome
    rw [hrow0]
    rfl
  · rw [if_neg hany] at h
    obtain rfl : rows ++ [⟨i, q, r, rater⟩] = rows' := by simpa using h
    unfold get_rating_for_problem load_ratings
    rw [Option.getD_some, List.find?_append]
    have hnone : rows.find? (matchKey i rater) = none :=
      List.find?_eq_none.mpr
        (List.any_eq_false.mp (Bool.of_not_eq_true hany))
    have hnew : matchKey i rater (⟨i, q, r, rater⟩ : Row) = true := by
      simp [matchKey]
    rw [hnone]
    simp [List.find?_cons, hnew]

/-- C1 counterexample: on a store that already holds two rows for the key
`(0, "Tom")`, a successful `set` leaves two entries for that key, so
"for every store state ... the store contains exactly one entry for
(i, rater)" fails as stated. -/
theorem C1_counterexample :
    ¬ countKey (load_ratings (save_rating
        (some [⟨0, "q1", 3, "Tom"⟩, ⟨0, "q1", 4, "Tom"⟩]) 0 "q1" 5 "Tom"))
        0 "Tom" = 1 := by decide

theorem countKey_updateFirst_all (rows : List Row) (i : Nat) (a : String)
    (r : Nat) (j : Nat) (b : String) :
    countKey (updateFirst rows i a r) j b = countKey rows j b := by
  induction rows with
  | nil => rfl
  | cons row rest ih =>
    unfold countKey updateFirst
    simp only [countKey] at ih
    by_cases hm : matchKey i a row = true
    · rw [if_pos hm]
      simp only [List.filter_cons, matchKey_setRating]
      by_cases hjb : matchKey j b row = true
      · rw [if_pos hjb, if_pos hjb]
        simp
      · rw [if_neg hjb, if_neg hjb]
    · rw [if_neg hm]
      simp only [List.filter_cons]
      by_cases hjb : matchKey j b row = true
      · rw [if_pos hjb, if_pos hjb]
        simp only [List.length_cons]
        rw [ih]
      · rw [if_neg hjb, if_neg hjb]
        exact ih

/-- C1 (amended): `set` is an upsert keyed by `(problem_index, rater_id)`: for
every store state holding at most one entry for the key — in particular every
state reachable from an empty store by `set` alone — after a successful
`set(i, q, r, rater)` the store contains exactly one entry for `(i, rater)`
and `get(i, rater)` returns `r`; the total entry count is unchanged whenever
an entry for the key already existed (the call updates in place rather than
appends), and repeating the same `set` with the same `r` changes nothing
further; moreover the at-most-one-entry invariant is preserved for every key,
so it does hold of every reachable state. -/
theorem C1_upsert {rows rows' : List Row} {i : Nat} {q : String} {r : Nat}
    {rater : String}
    (hinv : countKey rows i rater ≤ 1)
    (h : save_rating (some rows) i q r rater = some rows') :
    countKey rows' i rater = 1
    ∧ get_rating_for_problem (some rows') i rater = some r
    ∧ (0 < countKey rows i rater → rows'.length = rows.length)
    ∧ save_rating (some rows') i q r rater = some rows'
    ∧ (∀ j b, countKey rows j b ≤ 1 → countKey rows' j b ≤ 1) := by
  have hget : get_rating_for_problem (some rows') i rater = some r :=
    get_after_save h
  have hcount : countKey rows' i rater = 1 := by
    simp only [save_rating] at h
    by_cases hany : rows.any (matchKey i rater) = true
    · rw [if_pos hany] at h
      obtain rfl : updateFirst rows i rater r = rows' := by simpa using h
      rw [countKey_updateFirst]
      have := countKey_pos_of_any hany
      omega
    · rw [if_neg hany] at h
      obtain rfl : rows ++ [⟨i, q, r, rater⟩] = rows' := by simpa using h
      rw [countKey_append_one,
        (countKey_eq_zero_iff rows i rater).mpr (Bool.of_not_eq_true hany)]
  have hlen : 0 < countKey rows i rater → rows'.length = rows.length := by
    intro hpos
    simp only [save_rating] at h
    have hany : rows.any (matchKey i rater) = true := by
      rcases hbool : rows.any (matchKey i rater) with _ | _
      · rw [(countKey_eq_zero_iff rows i rater).mpr hbool] at hpos
        exact absurd hpos (by omega)
      · rfl
    rw [if_pos hany] at h
    obtain rfl : updateFirst rows i rater r = rows' := by simpa using h
    exact length_updateFirst rows i rater r
  refine ⟨hcount, hget, hlen, ?_, ?_⟩
  · have hany' : rows'.any (matchKey i rater) = true := by
      rcases hbool : rows'.any (matchKey i rater) with _ | _
      · rw [(countKey_eq_zero_iff rows' i rater).mpr hbool] at hcount
        exact absurd hcount (by omega)
      · rfl
    simp only [save_rating]
    rw [if_pos hany']
    congr 1
    apply updateFirst_eq_self
    have : (load_ratings (some rows')).find? (matchKey i rater) =
        rows'.find? (matchKey i rater) := rfl
    unfold get_rating_for_problem at hget
    rw [this] at hget
    exact hget
  · intro j b hjb
    simp only [save_rating] at h
    by_cases hany : rows.any (matchKey i rater) = true
    · rw [if_pos hany] at h
      obtain rfl : updateFirst rows i rater r = rows' := by simpa using h
      rw [countKey_updateFirst_all]
      exact hjb
    · rw [if_neg hany] at h
      obtain rfl : rows ++ [⟨i, q, r, rater⟩] = rows' := by simpa using h
      by_cases hkey : j = i ∧ b = rater
      · obtain ⟨rfl, rfl⟩ := hkey
        rw [countKey_append_one,
          (countKey_eq_zero_iff rows j b).mpr (Bool.of_not_eq_true hany)]
      · have hx : matchKey j b (⟨i, q, r, rater⟩ : Row) = false := by
          simp only [matchKey, Bool.and_eq_false_iff, beq_eq_false_iff_ne, ne_eq]
          rcases not_and_or.mp hkey with hj | hb
          · left
            exact fun hc => hj hc.symm
          · right
            exact fun hc => hb hc.symm
        unfold countKey
        rw [List.filter_append]
        simp only [List.filter_cons, hx, Bool.false_eq_true, if_neg,
          not_false_iff, List.filter_nil, List.append_nil]
        exact hjb

/-- C1 witness: starting from a single-entry store for `(0, "Tom")` with
rating 3, setting rating 5 succeeds and the amended conclusions hold. -/
theorem C1_upsert_witness :
    countKey [⟨0, "q1", 3, "Tom"⟩] 0 "Tom" ≤ 1
    ∧ countKey [⟨0, "q1", 5, "Tom"⟩] 0 "Tom" = 1
    ∧ get_rating_for_problem (some [⟨0, "q1", 5, "Tom"⟩]) 0 "Tom" = some 5
    ∧ save_rating (some [⟨0, "q1", 5, "Tom"⟩]) 0 "q1" 5 "Tom" =
        some [⟨0, "q1", 5, "Tom"⟩] := by
  have h := C1_upsert
    (show countKey [⟨0, "q1", 3, "Tom"⟩] 0 "Tom" ≤ 1 by decide)
    (show save_rating (some [⟨0, "q1", 3, "Tom"⟩]) 0 "q1" 5 "Tom" =
        some [⟨0, "q1", 5, "Tom"⟩] by decide)
  exact ⟨by decide, h.1, h.2.1, h.2.2.2.1⟩

/-- C4: a successful `set(i, q, r, a)` never affects `get(j, b)` for any other
rater `b`; the write either overwrites only the rating field of the row at the
first position matching `(i, a)` (the single matching row whenever the
one-entry-per-key invariant holds) or appends exactly one new row, and it
modifies no other row or field. -/
theorem C4_isolation {rows rows' : List Row} {i : Nat} {q : String} {r : Nat}
    {a : String} (h : save_rating (some rows) i q r a = some rows') :
    (∀ j b, b ≠ a →
      get_rating_for_problem (some rows') j b =
        get_rating_for_problem (some rows) j b)
    ∧ ((∃ n, ∃ hn : n < rows.length,
          matchKey i a (rows.get ⟨n, hn⟩) = true ∧
          rows' = rows.set n { rows.get ⟨n, hn⟩ with rating := r })
        ∨ rows' = rows ++ [⟨i, q, r, a⟩]) := by
  simp only [save_rating] at h
  by_cases hany : rows.any (matchKey i a) = true
  · rw [if_pos hany] at h
    obtain rfl : updateFirst rows i a r = rows' := by simpa using h
    constructor
    · intro j b hb
      unfold get_rating_for_problem load_ratings
      rw [Option.getD_some, Option.getD_some, find?_updateFirst_ne rows i j a b r hb]
    · left
      have hsome : (firstMatchIdx rows i a).isSome = true :=
        (any_iff_firstMatchIdx rows i a).mp hany
      obtain ⟨n, hn⟩ := Option.isSome_iff_exists.mp hsome
      obtain ⟨hlt, hmk, hupd⟩ := firstMatchIdx_spec rows i a r hn
      exact ⟨n, hlt, hmk, hupd⟩
  · rw [if_neg hany] at h
    obtain rfl : rows ++ [⟨i, q, r, a⟩] = rows' := by simpa using h
    refine ⟨?_, Or.inr rfl⟩
    intro j b hb
    unfold get_rating_for_problem load_ratings
    rw [Option.getD_some, Option.getD_some, List.find?_append]
    have hnew : matchKey j b (⟨i, q, r, a⟩ : Row) = false := by
      simp only [matchKey, Bool.and_eq_false_iff, beq_eq_false_iff_ne, ne_eq]
      right
      exact fun hc => hb hc.symm
    simp [List.find?_cons, hnew]

/-- C4 witness: with Caroline's rating of problem 0 already stored, Tom's
write to problem 0 appends a row and leaves `get(0, "Caroline")` unchanged. -/
theorem C4_isolation_witness :
    get_rating_for_problem
        (some [⟨0, "q2", 2, "Caroline"⟩, ⟨0, "q2", 5, "Tom"⟩]) 0 "Caroline" =
      get_rating_for_problem (some [⟨0, "q2", 2, "Caroline"⟩]) 0 "Caroline" :=
  (C4_isolation (show save_rating (some [⟨0, "q2", 2, "Caroline"⟩]) 0 "q2" 5 "Tom" =
      some [⟨0, "q2", 2, "Caroline"⟩, ⟨0, "q2", 5, "Tom"⟩] by decide)).1
    0 "Caroline" (by decide)

/-- C9: even when the store already holds several rows for the same key,
`get` and `set` agree on which row is authoritative: `get` returns the rating
of the first matching row in store order, `set` overwrites the rating cell of
that same first matching row (or appends when none matches), and therefore
`get(i, rater) = r` after a successful `set(i, q, r, rater)` regardless of
pre-existing duplicates. -/
theorem C9_first_row_authoritative {rows rows' : List Row} {i : Nat}
    {q : String} {r : Nat} {rater : String}
    (h : save_rating (some rows) i q r rater = some rows') :
    get_rating_for_problem (some rows') i rater = some r
    ∧ get_rating_for_problem (some rows) i rater =
        (rows.find? (matchKey i rater)).map Row.rating
    ∧ (∀ n, firstMatchIdx rows i rater = some n →
        ∃ hn : n < rows.length,
          matchKey i rater (rows.get ⟨n, hn⟩) = true ∧
          rows' = rows.set n { rows.get ⟨n, hn⟩ with rating := r })
    ∧ (firstMatchIdx rows i rater = none → rows' = rows ++ [⟨i, q, r, rater⟩]) := by
  refine ⟨get_after_save h, rfl, ?_, ?_⟩
  · intro n hn
    have hany : rows.any (matchKey i rater) = true :=
      (any_iff_firstMatchIdx rows i rater).mpr (by rw [hn]; rfl)
    simp only [save_rating] at h
    rw [if_pos hany] at h
    obtain rfl : updateFirst rows i rater r = rows' := by simpa using h
    exact firstMatchIdx_spec rows i rater r hn
  · intro hn
    have hany : ¬ rows.any (matchKey i rater) = true := by
      intro hc
      have := (any_iff_firstMatchIdx rows i rater).mp hc
      rw [hn] at this
      exact Bool.false_ne_true this
    simp only [save_rating] at h
    rw [if_neg hany] at h
    exact (by simpa using h : rows ++ [⟨i, q, r, rater⟩] = rows').symm

/-- C9 witness: on a store with two duplicate rows for `(1, "Tom")`, a set of
rating 5 makes `get(1, "Tom")` return 5. -/
theorem C9_first_row_authoritative_witness :
    get_rating_for_problem
        (some [⟨1, "q3", 5, "Tom"⟩, ⟨1, "q3", 4, "Tom"⟩]) 1 "Tom" = some 5 :=
  (C9_first_row_authoritative
    (show save_rating (some [⟨1, "q3", 3, "Tom"⟩, ⟨1, "q3", 4, "Tom"⟩])
        1 "q3" 5 "Tom" =
      some [⟨1, "q3", 5, "Tom"⟩, ⟨1, "q3", 4, "Tom"⟩] by decide)).1

theorem save_some (rows : List Row) (i : Nat) (q : String) (r : Nat) (a : String) :
    ∃ rows2, save_rating (some rows) i q r a = some rows2 := by
  simp only [save_rating]
  by_cases h : rows.any (matchKey i a) = true
  · exact ⟨_, by rw [if_pos h]⟩
  · exact ⟨_, by rw [if_neg h]⟩

theorem rate_step_of_save_some {conn : Option (List Row)} {assigned : List Nat}
    {cur : Nat} {q : String} {r : Nat} {rater : String} {rows : List Row}
    {pos : Nat} (hsave : save_rating conn cur q r rater = some rows)
    (hidx : listIndex assigned cur = some pos) :
    rate_step conn assigned cur q r rater =
      if pos < assigned.length - 1 then
        some ⟨some rows, assigned.getD (pos + 1) cur, false, true⟩
      else some ⟨some rows, cur, true, true⟩ := by
  simp only [rate_step, hsave, hidx]

theorem mem_of_contains {l : List Nat} {c : Nat} (h : l.contains c = true) :
    c ∈ l :=
  List.elem_iff.mp h

/-- C5: the navigation cursor is inside the rater's assigned range whenever a
problem is read: clamping always lands in the range; a jump whose target
respects the number-input bounds lands in the range (every resolved assignment
being a contiguous range); advance, retreat and the auto-advance after a save
all preserve membership in the range. -/
theorem C5_cursor_invariant :
    (∀ assigned cur i, clamp_to_assignment assigned cur = some i → i ∈ assigned)
    ∧ (∀ lo hi t mn mx, minProblem (pyRange lo hi) = some mn →
        maxProblem (pyRange lo hi) = some mx →
        mn ≤ t → t ≤ mx → jump t ∈ pyRange lo hi)
    ∧ (∀ assignment N, ∃ lo hi, resolveAssignment assignment N = pyRange lo hi)
    ∧ (∀ assigned cur c, cur ∈ assigned → advance assigned cur = some c →
        c ∈ assigned)
    ∧ (∀ assigned cur c, cur ∈ assigned → retreat assigned cur = some c →
        c ∈ assigned)
    ∧ (∀ conn assigned cur q r rater o, cur ∈ assigned →
        rate_step conn assigned cur q r rater = some o →
        o.current_index ∈ assigned) := by
  refine ⟨?_, ?_, ?_, ?_, ?_, ?_⟩
  · intro assigned cur i h
    cases cur with
    | none => exact head?_mem h
    | some c =>
      simp only [clamp_to_assignment] at h
      by_cases hc : assigned.contains c = true
      · rw [if_pos hc] at h
        obtain rfl := Option.some.inj h
        exact mem_of_contains hc
      · rw [if_neg hc] at h
        exact head?_mem h
  · intro lo hi t mn mx hmn hmx h1 h2
    have hlo : lo < hi := by
      by_contra hcon
      have hnil : pyRange lo hi = [] := by
        unfold pyRange
        rw [show hi - lo = 0 from by omega]
        rfl
      rw [hnil] at hmn
      simp [minProblem] at hmn
    unfold minProblem at hmn
    rw [head?_pyRange hlo] at hmn
    have hmnv : lo + 1 = mn := by simpa using hmn
    unfold maxProblem at hmx
    rw [getLast?_pyRange hlo] at hmx
    have hmxv : hi - 1 + 1 = mx := by simpa using hmx
    unfold jump
    rw [mem_pyRange_of_le (Nat.le_of_lt hlo)]
    omega
  · intro assignment N
    rcases resolveAssignment_shape assignment N with h | h | h
    · exact ⟨0, N / 2, h⟩
    · exact ⟨N / 2, N, h⟩
    · exact ⟨0, N, h⟩
  · intro assigned cur c hmem h
    obtain ⟨pos, hpos⟩ := Option.isSome_iff_exists.mp (listIndex_isSome_of_mem hmem)
    simp only [advance, hpos] at h
    by_cases hc : (pos == assigned.length - 1) = true
    · rw [if_pos hc] at h
      obtain rfl := Option.some.inj h
      exact hmem
    · rw [if_neg hc] at h
      obtain rfl := Option.some.inj h
      have hlt := listIndex_lt_length hpos
      have hne : pos ≠ assigned.length - 1 := by simpa using hc
      exact getD_mem cur (by omega)
  · intro assigned cur c hmem h
    obtain ⟨pos, hpos⟩ := Option.isSome_iff_exists.mp (listIndex_isSome_of_mem hmem)
    simp only [retreat, hpos] at h
    by_cases hc : (pos == 0) = true
    · rw [if_pos hc] at h
      obtain rfl := Option.some.inj h
      exact hmem
    · rw [if_neg hc] at h
      obtain rfl := Option.some.inj h
      have hlt := listIndex_lt_length hpos
      exact getD_mem cur (by omega)
  · intro conn assigned cur q r rater o hmem h
    rcases hsave : save_rating conn cur q r rater with _ | rows
    · simp only [rate_step, hsave] at h
      obtain rfl := Option.some.inj h
      exact hmem
    · obtain ⟨pos, hpos⟩ :=
        Option.isSome_iff_exists.mp (listIndex_isSome_of_mem hmem)
      rw [rate_step_of_save_some hsave hpos] at h
      by_cases hc : pos < assigned.length - 1
      · rw [if_pos hc] at h
        obtain rfl := Option.some.inj h
        have hlt := listIndex_lt_length hpos
        exact getD_mem cur (by omega)
      · rw [if_neg hc] at h
        obtain rfl := Option.some.inj h
        exact hmem

/-- C5 witness: clamping an out-of-range cursor 5 with assigned range
`[0, 1]` lands back inside the range. -/
theorem C5_cursor_invariant_witness :
    clamp_to_assignment [0, 1] (some 5) = some 0 ∧ 0 ∈ [0, 1] :=
  ⟨by decide, C5_cursor_invariant.1 [0, 1] (some 5) 0 (by decide)⟩

/-- C6: after every successful set on an assigned contiguous range
`[lo, hi)` (every resolved assignment has this shape), if the cursor is not at
the last assigned index it advances to the next assigned index in catalog
order (`cur + 1`); at the last assigned index it stays put and the outcome is
flagged complete — a terminal UI state only: the store receives nothing
beyond the saved rating row (`conn` is exactly the `save_rating` result). -/
theorem C6_auto_advance (rows : List Row) (lo hi cur : Nat) (q : String)
    (r : Nat) (rater : String) (h1 : lo ≤ cur) (h2 : cur < hi) :
    rate_step (some rows) (pyRange lo hi) cur q r rater =
      some { conn := save_rating (some rows) cur q r rater,
             current_index := if cur + 1 < hi then cur + 1 else cur,
             complete := if cur + 1 < hi then false else true,
             saved := true } := by
  obtain ⟨rows2, hsave⟩ := save_some rows cur q r rater
  have hidx : listIndex (pyRange lo hi) cur = some (cur - lo) :=
    listIndex_pyRange h1 h2
  rw [rate_step_of_save_some hsave hidx, hsave, length_pyRange]
  by_cases hc : cur + 1 < hi
  · rw [if_pos (show cur - lo < hi - lo - 1 from by omega),
      getD_pyRange cur (show cur - lo + 1 < hi - lo from by omega),
      show lo + (cur - lo + 1) = cur + 1 from by omega,
      if_pos hc, if_pos hc]
  · rw [if_neg (show ¬ cur - lo < hi - lo - 1 from by omega),
      if_neg hc, if_neg hc]

/-- C6 witness: on a two-problem range `[0, 2)` with an empty store, rating
problem 0 saves and auto-advances the cursor to 1 without completion. -/
theorem C6_auto_advance_witness :
    rate_step (some []) (pyRange 0 2) 0 "q4" 3 "Tom" =
      some { conn := save_rating (some []) 0 "q4" 3 "Tom",
             current_index := if 0 + 1 < 2 then 0 + 1 else 0,
             complete := if 0 + 1 < 2 then false else true,
             saved := true } :=
  C6_auto_advance [] 0 2 0 "q4" 3 "Tom" (by decide) (by decide)

theorem head?_filter {α : Type} (p : α → Bool) (l : List α) :
    (l.filter p).head? = l.find? p := by
  induction l with
  | nil => rfl
  | cons x rest ih =>
    rw [List.filter_cons, List.find?_cons]
    cases hp : p x with
    | true => simp
    | false => simp only [Bool.false_eq_true, if_neg, not_false_iff]; exact ih

/-- C7: `first_unrated` scans the assigned range in catalog order and returns
the first index with no rating by the rater (it equals `find?` over the
range with the no-rating predicate); it returns `none` — signalling
"all rated" — exactly when every assigned index has a rating by that rater,
and any returned index is assigned and unrated. -/
theorem C7_first_unrated (conn : Option (List Row)) (assigned : List Nat)
    (rater : String) :
    first_unrated conn assigned rater =
      assigned.find? (fun i => (get_rating_for_problem conn i rater).isNone)
    ∧ (first_unrated conn assigned rater = none ↔
        ∀ i ∈ assigned, (get_rating_for_problem conn i rater).isSome = true)
    ∧ (∀ j, first_unrated conn assigned rater = some j →
        j ∈ assigned ∧ get_rating_for_problem conn j rater = none) := by
  have heq : first_unrated conn assigned rater =
      assigned.find? (fun i => (get_rating_for_problem conn i rater).isNone) :=
    head?_filter _ assigned
  refine ⟨heq, ?_, ?_⟩
  · rw [heq, List.find?_eq_none]
    constructor
    · intro h i hi
      have hni := h i hi
      rw [← Option.ne_none_iff_isSome]
      simp only [Option.isNone_iff_eq_none] at hni
      exact hni
    · intro h i hi
      have := h i hi
      simp only [Option.isNone_iff_eq_none]
      rw [← Option.ne_none_iff_isSome] at this
      exact this
  · intro j hj
    rw [heq] at hj
    refine ⟨List.mem_of_find?_eq_some hj, ?_⟩
    have := List.find?_some hj
    simpa [Option.isNone_iff_eq_none] using this

/-- C7 witness: with only problem 0 rated by Tom out of `[0, 1]`, the first
unrated index is 1, which is assigned and unrated. -/
theorem C7_first_unrated_witness :
    1 ∈ [0, 1] ∧
      get_rating_for_problem (some [⟨0, "q5", 3, "Tom"⟩]) 1 "Tom" = none :=
  (C7_first_unrated (some [⟨0, "q5", 3, "Tom"⟩]) [0, 1] "Tom").2.2 1 (by decide)

/-- C8: on the assigned contiguous range `[lo, hi)`, `retreat` at the first
assigned index is a no-op and otherwise moves the cursor exactly one assigned
index backward; `advance` at the last assigned index is a no-op and otherwise
moves the cursor exactly one assigned index forward. -/
theorem C8_navigation_boundary (lo hi cur : Nat) (h1 : lo ≤ cur)
    (h2 : cur < hi) :
    retreat (pyRange lo hi) cur = some (if cur = lo then cur else cur - 1)
    ∧ advance (pyRange lo hi) cur =
        some (if cur + 1 = hi then cur else cur + 1) := by
  have hidx : listIndex (pyRange lo hi) cur = some (cur - lo) :=
    listIndex_pyRange h1 h2
  constructor
  · simp only [retreat, hidx]
    by_cases hc : cur = lo
    · rw [if_pos (show ((cur - lo) == 0) = true from by simp; omega),
        if_pos hc]
    · rw [if_neg (show ¬ ((cur - lo) == 0) = true from by simp; omega),
        if_neg hc,
        getD_pyRange cur (show cur - lo - 1 < hi - lo from by omega)]
      congr 1
      omega
  · simp only [advance, hidx, length_pyRange]
    by_cases hc : cur + 1 = hi
    · rw [if_pos (show ((cur - lo) == hi - lo - 1) = true from by simp; omega),
        if_pos hc]
    · rw [if_neg (show ¬ ((cur - lo) == hi - lo - 1) = true from by simp; omega),
        if_neg hc,
        getD_pyRange cur (show cur - lo + 1 < hi - lo from by omega)]
      congr 1
      omega

/-- C8 witness: in the range `[0, 3)` at cursor 1, retreat moves to 0 and
advance moves to 2. -/
theorem C8_navigation_boundary_witness :
    retreat (pyRange 0 3) 1 = some (if 1 = 0 then 1 else 1 - 1)
    ∧ advance (pyRange 0 3) 1 = some (if 1 + 1 = 3 then 1 else 1 + 1) :=
  C8_navigation_boundary 0 3 1 (by decide) (by decide)

/-- C10: the main flow needs a non-empty assigned range: with an empty catalog
(any assignment) or a single-problem catalog for a `first_half` rater the
assigned list is empty, and then every operation that indexes its first or
last element — cursor initialisation and clamping, the jump bounds,
previous/next and the post-save auto-advance — fails (`none`), so no display
or navigation is possible. -/
theorem C10_empty_assignment :
    (∀ assignment, resolveAssignment assignment 0 = [])
    ∧ resolveAssignment "first_half" 1 = []
    ∧ RATER_ASSIGNMENTS.lookup "Tom" = some "first_half"
    ∧ (∀ cur, clamp_to_assignment [] cur = none)
    ∧ minProblem [] = none
    ∧ maxProblem [] = none
    ∧ (∀ c, advance [] c = none)
    ∧ (∀ c, retreat [] c = none)
    ∧ (∀ rows c q r rater, rate_step (some rows) [] c q r rater = none) := by
  refine ⟨?_, by decide, by decide, ?_, rfl, rfl, fun _ => rfl, fun _ => rfl, ?_⟩
  · intro assignment
    rcases resolveAssignment_shape assignment 0 with h | h | h <;> rw [h] <;> rfl
  · intro cur
    cases cur <;> rfl
  · intro rows c q r rater
    obtain ⟨rows2, hsave⟩ := save_some rows c q r rater
    simp only [rate_step, hsave, listIndex]

end SurveyRating
